import Mathlib

/-!
Verification of the intercorrelation filter `selectNonIntercorrelated`
from `AI4MI_features_analysis.ipynb`.

The source function receives a pandas dataframe `df_in` (named numeric
columns), a list `ftrs` of feature names and a threshold `corr_th`.  It

  * computes `corr_matrix = df_in.corr(method='spearman').abs()` over all
    columns of `df_in`,
  * computes `mean_absolute_corr = corr_matrix.mean()` (per-column mean,
    diagonal included),
  * keeps the strict upper triangle and the entries `> corr_th`
    (`np.triu(..., k=1)` followed by `upper.where(upper > corr_th)` and the
    two `dropna` calls, which only discard all-empty rows and columns),
  * iterates over the remaining columns `feature` and, inside, over the
    rows `each_correlated_feature` whose entry is present; for each such
    pair it appends the member with the larger `mean_absolute_corr` (ties
    fall to the `else` branch, which appends the row member) to the local
    list `intercorrelated_features_set` unless it is already there,
  * returns `[e for e in ftrs if e not in intercorrelated_features_set]`.

The embedding models the dataframe as an ordered list of named columns of
rational values (the numeric-columns precondition of the spec).  The
pandas correlation call is a third-party library primitive; it is
abstracted as a parameter `c : Corr` giving the correlation of two columns,
and instantiated on concrete data by `spearmanNoTies`, the exact rational
value of Spearman's rank correlation for columns without repeated values.
NaN-producing degenerate inputs (constant columns, fewer than two rows) are
outside the spec's preconditions and are not modelled.
-/

namespace AI4MI

/-- A feature matrix as pandas presents it to `df_in.corr`: an ordered list
of named numeric columns (rows are only reachable through the correlation
of two columns, so they are kept inside the column vectors). -/
structure DataFrame where
  cols : List (String × List ℚ)

/-- Abstraction of the library correlation of two columns, the value
`df_in.corr(method='spearman')` places at the corresponding entry. -/
abbrev Corr : Type := List ℚ → List ℚ → ℚ

/-- Number of columns of the dataframe. -/
def nCols (df : DataFrame) : ℕ := df.cols.length

/-- Name of the `i`-th column (the dataframe's column labels). -/
def colName (df : DataFrame) (i : ℕ) : String := (df.cols.getD i ("", [])).1

/-- Values of the `i`-th column. -/
def colVals (df : DataFrame) (i : ℕ) : List ℚ := (df.cols.getD i ("", [])).2

/-- The dataframe's column labels, in order. -/
def colNames (df : DataFrame) : List String := df.cols.map Prod.fst

/-- Entry `(g, f)` (row label `g`, column label `f`) of
`corr_matrix = df_in.corr(method='spearman').abs()`. -/
def corr_matrix (c : Corr) (df : DataFrame) (g f : ℕ) : ℚ :=
  |c (colVals df g) (colVals df f)|

/-- Entry `f` of `mean_absolute_corr = corr_matrix.mean()`: pandas `mean`
averages each column over its rows (the diagonal entry included). -/
def mean_absolute_corr (c : Corr) (df : DataFrame) (f : ℕ) : ℚ :=
  (((List.range (nCols df)).map fun g => corr_matrix c df g f).sum) / (nCols df : ℚ)

/-- Position of a column label, as the pandas label lookup
`mean_absolute_corr[feature]` resolves it (first occurrence). -/
def idxOfName (df : DataFrame) (nm : String) : ℕ := (colNames df).indexOf nm

/-- The label lookup `mean_absolute_corr[feature]`. -/
def meanByName (c : Corr) (df : DataFrame) (nm : String) : ℚ :=
  mean_absolute_corr c df (idxOfName df nm)

/-- The surviving entries of
`upper.where(upper > corr_th).dropna(how='all', axis=1).dropna(how='all', axis=0)`
listed in the iteration order of the source's two nested loops: for each
column `j` (outer loop over `high_corrs.columns`), the rows `i < j` whose
entry exceeds the threshold (inner loop over the non-null index).  The
`dropna` calls only remove columns and rows with no surviving entry, so
they do not change this list. -/
def high_corr_pairs (c : Corr) (df : DataFrame) (th : ℚ) : List (ℕ × ℕ) :=
  (List.range (nCols df)).flatMap fun j =>
    ((List.range j).filter fun i => decide (th < corr_matrix c df i j)).map fun i => (i, j)

/-- One `append` guarded by `not in`, the only way the source ever extends
`intercorrelated_features_set`. -/
def pushIfNew (s : List String) (x : String) : List String :=
  if x ∈ s then s else s ++ [x]

/-- The member of the pair `p = (i, j)` that one loop iteration appends:
the source compares `mean_absolute_corr[feature]` (column `j`) with
`mean_absolute_corr[each_correlated_feature]` (row `i`) and appends the
column label when its mean is strictly larger, the row label otherwise
(so ties drop the row member). -/
def chooseDrop (c : Corr) (df : DataFrame) (p : ℕ × ℕ) : String :=
  if meanByName c df (colName df p.2) > meanByName c df (colName df p.1) then
    colName df p.2
  else
    colName df p.1

/-- The final value of the local list `intercorrelated_features_set`. -/
def intercorrelated_features_set (c : Corr) (df : DataFrame) (th : ℚ) : List String :=
  (high_corr_pairs c df th).foldl (fun acc p => pushIfNew acc (chooseDrop c df p)) []

/-- The return value
`[e for e in ftrs if e not in intercorrelated_features_set]`. -/
def selectNonIntercorrelated (c : Corr) (df : DataFrame) (ftrs : List String) (th : ℚ) :
    List String :=
  ftrs.filter fun e => decide (e ∉ intercorrelated_features_set c df th)

/-- Restriction of a dataframe to the columns whose labels belong to
`keep`, preserving column order (the matrix a caller would pass when
re-filtering the retained features). -/
def restrictCols (df : DataFrame) (keep : List String) : DataFrame :=
  ⟨df.cols.filter fun p => decide (p.1 ∈ keep)⟩

/-- Fractional rank (1-based, ties averaged) of the value `x` within the
column `xs`, as `scipy`'s rankdata computes it for Spearman: the positions
a value occupies are `#less + 1, ..., #less + #equal`, whose average is
`#less + (#equal + 1) / 2`. -/
def rankOf (xs : List ℚ) (x : ℚ) : ℚ :=
  ((xs.filter fun y => decide (y < x)).length : ℚ) +
    (1 + ((xs.filter fun y => decide (y = x)).length : ℚ)) / 2

/-- The rank vector of a column. -/
def ranks (xs : List ℚ) : List ℚ := xs.map (rankOf xs)

/-- Spearman's rank correlation of two equally long columns that contain no
repeated values: in that case the ranks of each column are a permutation of
`1, ..., n` and the Pearson correlation of the rank vectors equals the
classical exact formula `1 - 6 * Σ d² / (n * (n² - 1))`, a rational number.
This is the value `df_in.corr(method='spearman')` computes on tie-free
numeric columns, used to instantiate `Corr` on concrete data. -/
def spearmanNoTies (xs ys : List ℚ) : ℚ :=
  1 - 6 * ((List.zipWith (fun a b => (a - b) ^ 2) (ranks xs) (ranks ys)).sum) /
    ((xs.length : ℚ) * ((xs.length : ℚ) ^ 2 - 1))

/-- The mutable objects a caller shares with the function: the dataframe
bound to `df_in` and the list bound to `ftrs`.  Used to state that the call
never writes to either. -/
structure CallEnv where
  df_in : DataFrame
  ftrs : List String

/-- One iteration of the source's nested loops as a transformer of the
shared environment paired with the local list
`intercorrelated_features_set`: the body only reads `df_in` (two label
lookups in `mean_absolute_corr`) and appends to the local list, so the
environment component is passed through untouched. -/
def loopBody (c : Corr) (st : CallEnv × List String) (p : ℕ × ℕ) : CallEnv × List String :=
  (st.1, pushIfNew st.2 (chooseDrop c st.1.df_in p))

/-- The whole call as a transformer of the shared environment: `corr`,
`abs`, `mean`, `where` and `dropna` all allocate fresh objects, the loop
runs `loopBody`, and the final list comprehension reads `ftrs` and
allocates the result. -/
def selectCall (c : Corr) (env : CallEnv) (th : ℚ) : CallEnv × List String :=
  let st := (high_corr_pairs c env.df_in th).foldl (loopBody c) (env, [])
  (st.1, st.1.ftrs.filter fun e => decide (e ∉ st.2))

/-- Two columns with Spearman correlation exactly `4/5`
(ranks `[1,2,3,4]` against `[1,3,2,4]`). -/
def dfPair : DataFrame := ⟨[("A", [1, 2, 3, 4]), ("B", [1, 3, 2, 4])]⟩

/-- Two columns with Spearman correlation `1` (identical rank vectors). -/
def dfDup : DataFrame := ⟨[("A", [1, 2, 3]), ("B", [2, 4, 6])]⟩

/-- Three columns with correlations `|ρ(A,B)| = |ρ(B,C)| = 4/5` and
`|ρ(A,C)| = 1`, so the mean absolute correlations are
`14/15, 13/15, 14/15`: in the pair `(A, B)` the first member has the
strictly higher centrality. -/
def dfTilt : DataFrame := ⟨[("A", [1, 2, 3, 4]), ("B", [1, 2, 4, 3]), ("C", [2, 3, 4, 5])]⟩

/-- Three columns where `A` and `B` are perfectly correlated while `C` has
correlation `4/5` with each: with `ftrs = [A, C]` and threshold `9/10`,
`A` is dropped only because of the out-of-list column `B`. -/
def dfOutside : DataFrame := ⟨[("A", [1, 2, 3, 4]), ("B", [2, 4, 6, 8]), ("C", [1, 2, 4, 3])]⟩

theorem mem_pushIfNew {s : List String} {x y : String} :
    y ∈ pushIfNew s x ↔ y ∈ s ∨ y = x := by
  by_cases h : x ∈ s
  · rw [pushIfNew, if_pos h]
    exact ⟨Or.inl, fun hy => hy.elim id fun he => he ▸ h⟩
  · rw [pushIfNew, if_neg h]
    simp

theorem mem_foldl_pushIfNew {α : Type} (f : α → String) (x : String) :
    ∀ (l : List α) (acc : List String),
      x ∈ l.foldl (fun a p => pushIfNew a (f p)) acc ↔ x ∈ acc ∨ ∃ p ∈ l, f p = x := by
  intro l
  induction l with
  | nil => intro acc; simp
  | cons head tail ih =>
      intro acc
      rw [List.foldl_cons, ih, mem_pushIfNew]
      constructor
      · rintro (⟨hacc | hx⟩ | ⟨p, hp, he⟩)
        · exact Or.inl hacc
        · exact Or.inr ⟨head, List.mem_cons_self _ _, hx.symm⟩
        · exact Or.inr ⟨p, List.mem_cons_of_mem _ hp, he⟩
      · rintro (hacc | ⟨p, hp, he⟩)
        · exact Or.inl (Or.inl hacc)
        · rcases List.mem_cons.mp hp with rfl | hp'
          · exact Or.inl (Or.inr he.symm)
          · exact Or.inr ⟨p, hp', he⟩

theorem mem_high_corr_pairs {c : Corr} {df : DataFrame} {th : ℚ} {i j : ℕ} :
    (i, j) ∈ high_corr_pairs c df th ↔
      i < j ∧ j < nCols df ∧ th < corr_matrix c df i j := by
  simp only [high_corr_pairs, List.mem_flatMap, List.mem_map, List.mem_filter, List.mem_range,
    decide_eq_true_eq]
  constructor
  · rintro ⟨j', hj', i', ⟨hi', hc⟩, he⟩
    obtain ⟨rfl, rfl⟩ := Prod.mk.injEq .. ▸ he
    exact ⟨hi', hj', hc⟩
  · rintro ⟨hij, hj, hc⟩
    exact ⟨j, hj, i, ⟨hij, hc⟩, rfl⟩

theorem mem_intercorrelated {c : Corr} {df : DataFrame} {th : ℚ} {x : String} :
    x ∈ intercorrelated_features_set c df th ↔
      ∃ p ∈ high_corr_pairs c df th, chooseDrop c df p = x := by
  rw [intercorrelated_features_set, mem_foldl_pushIfNew]
  simp

theorem mem_selectNonIntercorrelated {c : Corr} {df : DataFrame} {ftrs : List String} {th : ℚ}
    {x : String} :
    x ∈ selectNonIntercorrelated c df ftrs th ↔
      x ∈ ftrs ∧ x ∉ intercorrelated_features_set c df th := by
  simp [selectNonIntercorrelated]

theorem colName_mem_colNames {df : DataFrame} {i : ℕ} (h : i < nCols df) :
    colName df i ∈ colNames df := by
  rw [colName, List.getD_eq_getElem _ _ h]
  exact List.mem_map.mpr ⟨df.cols[i], List.getElem_mem h, rfl⟩

theorem idxOfName_colName {df : DataFrame} (hnd : (colNames df).Nodup) {j : ℕ}
    (hj : j < nCols df) : idxOfName df (colName df j) = j := by
  have hj' : j < (colNames df).length := by simpa [colNames, nCols] using hj
  have he : colName df j = (colNames df)[j] := by
    rw [colName, List.getD_eq_getElem _ _ hj]
    simp [colNames]
  rw [idxOfName, he]
  exact List.indexOf_getElem hnd j hj'

theorem intercorrelated_subset_colNames {c : Corr} {df : DataFrame} {th : ℚ} {x : String}
    (hx : x ∈ intercorrelated_features_set c df th) : x ∈ colNames df := by
  rw [mem_intercorrelated] at hx
  obtain ⟨⟨i, j⟩, hp, he⟩ := hx
  rw [mem_high_corr_pairs] at hp
  obtain ⟨hij, hj, _⟩ := hp
  subst he
  rw [chooseDrop]
  split
  · exact colName_mem_colNames hj
  · exact colName_mem_colNames (lt_trans hij hj)

theorem high_corr_pairs_eq_nil {c : Corr} {df : DataFrame} {th : ℚ}
    (h : ∀ i j, i < j → j < nCols df → ¬ th < corr_matrix c df i j) :
    high_corr_pairs c df th = [] := by
  rw [List.eq_nil_iff_forall_not_mem]
  rintro ⟨i, j⟩ hp
  rw [mem_high_corr_pairs] at hp
  exact h i j hp.1 hp.2.1 hp.2.2

theorem select_eq_self_of_no_high {c : Corr} {df : DataFrame} {ftrs : List String} {th : ℚ}
    (h : ∀ i j, i < j → j < nCols df → ¬ th < corr_matrix c df i j) :
    selectNonIntercorrelated c df ftrs th = ftrs := by
  have hnil : intercorrelated_features_set c df th = [] := by
    rw [intercorrelated_features_set, high_corr_pairs_eq_nil h]
    rfl
  rw [selectNonIntercorrelated, hnil]
  apply List.filter_eq_self.mpr
  intro a _
  simp

theorem foldl_loopBody_eq (c : Corr) :
    ∀ (l : List (ℕ × ℕ)) (env : CallEnv) (acc : List String),
      l.foldl (loopBody c) (env, acc) =
        (env, l.foldl (fun a p => pushIfNew a (chooseDrop c env.df_in p)) acc) := by
  intro l
  induction l with
  | nil => intro env acc; rfl
  | cons head tail ih =>
      intro env acc
      rw [List.foldl_cons, List.foldl_cons]
      exact ih env _

theorem colVals_eq_get {df : DataFrame} {i : ℕ} (h : i < nCols df) :
    colVals df i = (df.cols.get ⟨i, h⟩).2 := by
  rw [colVals, List.getD_eq_getElem _ _ h, List.get_eq_getElem]

theorem colName_eq_get {df : DataFrame} {i : ℕ} (h : i < nCols df) :
    colName df i = (df.cols.get ⟨i, h⟩).1 := by
  rw [colName, List.getD_eq_getElem _ _ h, List.get_eq_getElem]

theorem chooseDrop_eq_snd (c : Corr) (df : DataFrame) (hnd : (colNames df).Nodup) (i j : ℕ)
    (hi : i < nCols df) (hj : j < nCols df)
    (h : mean_absolute_corr c df i < mean_absolute_corr c df j) :
    chooseDrop c df (i, j) = colName df j := by
  simp only [chooseDrop, meanByName, idxOfName_colName hnd hi, idxOfName_colName hnd hj]
  rw [if_pos h]

theorem chooseDrop_eq_fst (c : Corr) (df : DataFrame) (hnd : (colNames df).Nodup) (i j : ℕ)
    (hi : i < nCols df) (hj : j < nCols df)
    (h : mean_absolute_corr c df j ≤ mean_absolute_corr c df i) :
    chooseDrop c df (i, j) = colName df i := by
  simp only [chooseDrop, meanByName, idxOfName_colName hnd hi, idxOfName_colName hnd hj]
  rw [if_neg (not_lt.mpr h)]

/-- Claim C1: for every input with distinct column labels and every
strict-upper-triangle pair whose absolute Spearman correlation exceeds the
threshold, the member of the pair with the strictly higher centrality
score (mean absolute correlation, the diagonal included) enters
`intercorrelated_features_set` and is therefore absent from the returned
feature list. -/
theorem C1_higher_centrality_member_dropped (c : Corr) (df : DataFrame) (ftrs : List String)
    (th : ℚ) (hnd : (colNames df).Nodup) (i j k : ℕ) (hij : i < j) (hj : j < nCols df)
    (hhigh : th < corr_matrix c df i j)
    (hk : (k = j ∧ mean_absolute_corr c df i < mean_absolute_corr c df j) ∨
          (k = i ∧ mean_absolute_corr c df j < mean_absolute_corr c df i)) :
    colName df k ∈ intercorrelated_features_set c df th ∧
      colName df k ∉ selectNonIntercorrelated c df ftrs th := by
  have hi : i < nCols df := lt_trans hij hj
  have hmem : (i, j) ∈ high_corr_pairs c df th := mem_high_corr_pairs.mpr ⟨hij, hj, hhigh⟩
  have hmi : meanByName c df (colName df i) = mean_absolute_corr c df i := by
    rw [meanByName, idxOfName_colName hnd hi]
  have hmj : meanByName c df (colName df j) = mean_absolute_corr c df j := by
    rw [meanByName, idxOfName_colName hnd hj]
  have hchoose : chooseDrop c df (i, j) = colName df k := by
    rcases hk with ⟨rfl, hlt⟩ | ⟨rfl, hlt⟩
    · simp only [chooseDrop, hmi, hmj]
      rw [if_pos hlt]
    · simp only [chooseDrop, hmi, hmj]
      rw [if_neg (not_lt.mpr (le_of_lt hlt))]
  have hdrop : colName df k ∈ intercorrelated_features_set c df th :=
    mem_intercorrelated.mpr ⟨(i, j), hmem, hchoose⟩
  exact ⟨hdrop, fun hsel => (mem_selectNonIntercorrelated.mp hsel).2 hdrop⟩

/-- Claim C2: re-filtering is the identity on the output: running the
selection again on the matrix restricted to the retained features, with
the retained list and the same threshold, returns the retained list
unchanged.  Restriction preserves both the column order and the pairwise
column correlations, so any surviving above-threshold pair would force one
of its members both into and out of the first drop set. -/
theorem C2_refilter_identity (c : Corr) (df : DataFrame) (ftrs : List String) (th : ℚ) :
    selectNonIntercorrelated c
        (restrictCols df (selectNonIntercorrelated c df ftrs th))
        (selectNonIntercorrelated c df ftrs th) th
      = selectNonIntercorrelated c df ftrs th := by
  apply select_eq_self_of_no_high
  intro i' j' hij' hj' hc
  have hsub : (restrictCols df (selectNonIntercorrelated c df ftrs th)).cols.Sublist df.cols :=
    List.filter_sublist _
  obtain ⟨f, hf⟩ := List.sublist_iff_exists_fin_orderEmbedding_get_eq.mp hsub
  have hi' : i' < nCols (restrictCols df (selectNonIntercorrelated c df ftrs th)) :=
    lt_trans hij' hj'
  have hvi : colVals (restrictCols df (selectNonIntercorrelated c df ftrs th)) i'
      = colVals df (f ⟨i', hi'⟩) := by
    rw [colVals_eq_get hi', colVals_eq_get (f ⟨i', hi'⟩).isLt, hf ⟨i', hi'⟩]
  have hvj : colVals (restrictCols df (selectNonIntercorrelated c df ftrs th)) j'
      = colVals df (f ⟨j', hj'⟩) := by
    rw [colVals_eq_get hj', colVals_eq_get (f ⟨j', hj'⟩).isLt, hf ⟨j', hj'⟩]
  have hflt : ((f ⟨i', hi'⟩) : Fin df.cols.length) < f ⟨j', hj'⟩ :=
    f.lt_iff_lt.mpr hij'
  have hcorr : th < corr_matrix c df (f ⟨i', hi'⟩) (f ⟨j', hj'⟩) := by
    rw [corr_matrix] at hc ⊢
    rw [hvi, hvj] at hc
    exact hc
  have hmem : (((f ⟨i', hi'⟩) : ℕ), ((f ⟨j', hj'⟩) : ℕ)) ∈ high_corr_pairs c df th :=
    mem_high_corr_pairs.mpr ⟨hflt, (f ⟨j', hj'⟩).isLt, hcorr⟩
  have hv : chooseDrop c df (((f ⟨i', hi'⟩) : ℕ), ((f ⟨j', hj'⟩) : ℕ))
      ∈ intercorrelated_features_set c df th :=
    mem_intercorrelated.mpr ⟨_, hmem, rfl⟩
  have hnameIn : ∀ ix : Fin (restrictCols df (selectNonIntercorrelated c df ftrs th)).cols.length,
      colName df (f ix) ∈ selectNonIntercorrelated c df ftrs th := by
    intro ix
    have hname : colName df (f ix)
        = ((restrictCols df (selectNonIntercorrelated c df ftrs th)).cols.get ix).1 := by
      rw [colName_eq_get (f ix).isLt, hf ix]
    have hmemcols : (restrictCols df (selectNonIntercorrelated c df ftrs th)).cols.get ix
        ∈ (df.cols.filter fun p => decide (p.1 ∈ selectNonIntercorrelated c df ftrs th)) :=
      List.get_mem _ ix.1 ix.2
    have := (List.mem_filter.mp hmemcols).2
    rw [hname]
    exact of_decide_eq_true this
  have hvin : chooseDrop c df (((f ⟨i', hi'⟩) : ℕ), ((f ⟨j', hj'⟩) : ℕ))
      ∈ selectNonIntercorrelated c df ftrs th := by
    rw [chooseDrop]
    split
    · exact hnameIn ⟨j', hj'⟩
    · exact hnameIn ⟨i', hi'⟩
  exact (mem_selectNonIntercorrelated.mp hvin).2 hv

/-- Claim C3: if every pairwise absolute Spearman correlation between
distinct columns of the matrix is strictly below the threshold, the
returned list is the input feature list unchanged. -/
theorem C3_all_below_threshold_identity (c : Corr) (df : DataFrame) (ftrs : List String)
    (th : ℚ)
    (h : ∀ i j, i < nCols df → j < nCols df → i ≠ j → corr_matrix c df i j < th) :
    selectNonIntercorrelated c df ftrs th = ftrs :=
  select_eq_self_of_no_high fun i j hij hj =>
    not_lt.mpr (le_of_lt (h i j (lt_trans hij hj) hj (Nat.ne_of_lt hij)))

/-- Claim C4: the returned list is an order-preserving, duplicate-free
subsequence of the input feature list (duplicate-freeness uses the
precondition that the input names are distinct). -/
theorem C4_output_sublist_nodup (c : Corr) (df : DataFrame) (ftrs : List String) (th : ℚ)
    (hnd : ftrs.Nodup) :
    (selectNonIntercorrelated c df ftrs th).Sublist ftrs ∧
      (selectNonIntercorrelated c df ftrs th).Nodup :=
  ⟨List.filter_sublist _, (List.filter_sublist _).nodup hnd⟩

/-- Claim C5: the comparison with the threshold is strict, so pairs whose
absolute correlation is exactly the threshold are not treated as
exceeding it: if no distinct pair is strictly above the threshold
(equality allowed), the returned list is the input feature list
unchanged. -/
theorem C5_threshold_equality_not_exceeding (c : Corr) (df : DataFrame) (ftrs : List String)
    (th : ℚ)
    (h : ∀ i j, i < nCols df → j < nCols df → i ≠ j → corr_matrix c df i j ≤ th) :
    selectNonIntercorrelated c df ftrs th = ftrs :=
  select_eq_self_of_no_high fun i j hij hj =>
    not_lt.mpr (h i j (lt_trans hij hj) hj (Nat.ne_of_lt hij))

/-- Claim C8: the call is pure with respect to its arguments: threading the
shared environment (the caller's dataframe and feature list) through every
loop iteration returns it unchanged, and the value produced is the one the
pure function computes. -/
theorem C8_call_leaves_inputs_unchanged (c : Corr) (env : CallEnv) (th : ℚ) :
    (selectCall c env th).1 = env ∧
      (selectCall c env th).2 = selectNonIntercorrelated c env.df_in env.ftrs th := by
  simp only [selectCall]
  rw [foldl_loopBody_eq]
  exact ⟨rfl, rfl⟩

/-- Claim C9: the drop set contains only column labels of the matrix, so a
feature name absent from the matrix always passes the filter silently and
appears in the output. -/
theorem C9_unknown_names_retained (c : Corr) (df : DataFrame) (ftrs : List String) (th : ℚ)
    (x : String) (hx : x ∈ ftrs) (hno : x ∉ colNames df) :
    x ∈ selectNonIntercorrelated c df ftrs th ∧
      ∀ y ∈ intercorrelated_features_set c df th, y ∈ colNames df :=
  ⟨mem_selectNonIntercorrelated.mpr
      ⟨hx, fun hmem => hno (intercorrelated_subset_colNames hmem)⟩,
    fun _ hy => intercorrelated_subset_colNames hy⟩

/-- Claim C6, counterexample: the single-feature call does not always
return the feature: with a second matrix column perfectly correlated to
it (`dfDup`, threshold `1/2`), the tie on the centrality scores drops the
first member of the pair, which is the one feature asked for. -/
theorem C6_counterexample :
    selectNonIntercorrelated spearmanNoTies dfDup ["A"] (1/2) ≠ ["A"] := by
  have hch : chooseDrop spearmanNoTies dfDup (0, 1) = "A" := by
    have h := chooseDrop_eq_fst spearmanNoTies dfDup (by decide) 0 1
      (show 0 < nCols dfDup by norm_num [nCols, dfDup])
      (show 1 < nCols dfDup by norm_num [nCols, dfDup])
      (by norm_num [mean_absolute_corr, nCols, dfDup, List.range_succ, corr_matrix, colVals,
        spearmanNoTies, ranks, rankOf, List.filter, abs_of_nonneg])
    exact h.trans rfl
  have hdrop : "A" ∈ intercorrelated_features_set spearmanNoTies dfDup (1/2) :=
    mem_intercorrelated.mpr ⟨(0, 1),
      mem_high_corr_pairs.mpr ⟨by norm_num, by norm_num [nCols, dfDup],
        by norm_num [corr_matrix, colVals, dfDup, spearmanNoTies, ranks, rankOf,
          List.filter, abs_of_nonneg]⟩,
      hch⟩
  intro he
  have hmem : "A" ∈ selectNonIntercorrelated spearmanNoTies dfDup ["A"] (1/2) := by
    rw [he]
    exact List.mem_singleton.mpr rfl
  exact (mem_selectNonIntercorrelated.mp hmem).2 hdrop

/-- Claim C6 (amended): a single-feature call returns that feature
unchanged for every threshold when the matrix consists of exactly that
single column, since the strict upper triangle of a one-column
correlation matrix is empty. -/
theorem C6_amended_single_column (c : Corr) (nm : String) (vals : List ℚ) (th : ℚ) :
    selectNonIntercorrelated c ⟨[(nm, vals)]⟩ [nm] th = [nm] := by
  apply select_eq_self_of_no_high
  intro i j hij hj _
  simp only [nCols, List.length_cons, List.length_nil] at hj
  omega

/-- Claim C7, counterexample: a feature name absent from the matrix does
not make the call fail with an input-validation error: the call completes
and silently returns the name in its output. -/
theorem C7_counterexample :
    selectNonIntercorrelated spearmanNoTies dfDup ["ghost"] (9/10) = ["ghost"] := by
  rw [selectNonIntercorrelated]
  apply List.filter_eq_self.mpr
  intro a ha
  rw [List.mem_singleton] at ha
  subst ha
  exact decide_eq_true fun hmem =>
    absurd (intercorrelated_subset_colNames hmem) (by decide)

/-- Claim C7 (amended): the function performs no input validation and has
no failure path: on every input — including a feature list containing
names absent from the matrix — it completes and returns an
order-preserving sublist of the input features, and any name absent from
the matrix is silently retained in the output rather than rejected. -/
theorem C7_amended_no_validation (c : Corr) (df : DataFrame) (ftrs : List String) (th : ℚ)
    (x : String) (hx : x ∈ ftrs) (hno : x ∉ colNames df) :
    (selectNonIntercorrelated c df ftrs th).Sublist ftrs ∧
      x ∈ selectNonIntercorrelated c df ftrs th :=
  ⟨List.filter_sublist _,
    mem_selectNonIntercorrelated.mpr
      ⟨hx, fun hmem => hno (intercorrelated_subset_colNames hmem)⟩⟩

/-- Claim C10: the drop set is computed from the correlation matrix of all
matrix columns, not only the listed features: with `ftrs = ["A", "C"]` on
`dfOutside`, the feature `"A"` is excluded from the output although its
absolute correlation with the only other listed feature `"C"` is below the
threshold, solely because of its perfect correlation with the unlisted
column `"B"`. -/
theorem C10_outside_column_can_drop :
    "A" ∈ (["A", "C"] : List String) ∧
      "B" ∉ (["A", "C"] : List String) ∧
      corr_matrix spearmanNoTies dfOutside 0 2 ≤ 9/10 ∧
      9/10 < corr_matrix spearmanNoTies dfOutside 0 1 ∧
      "A" ∉ selectNonIntercorrelated spearmanNoTies dfOutside ["A", "C"] (9/10) := by
  refine ⟨by decide, by decide, ?_, ?_, ?_⟩
  · norm_num [corr_matrix, colVals, dfOutside, spearmanNoTies, ranks, rankOf, List.filter,
      abs_of_nonneg]
  · norm_num [corr_matrix, colVals, dfOutside, spearmanNoTies, ranks, rankOf, List.filter,
      abs_of_nonneg]
  · have hch : chooseDrop spearmanNoTies dfOutside (0, 1) = "A" := by
      have h := chooseDrop_eq_fst spearmanNoTies dfOutside (by decide) 0 1
        (show 0 < nCols dfOutside by norm_num [nCols, dfOutside])
        (show 1 < nCols dfOutside by norm_num [nCols, dfOutside])
        (by norm_num [mean_absolute_corr, nCols, dfOutside, List.range_succ, corr_matrix,
          colVals, spearmanNoTies, ranks, rankOf, List.filter, abs_of_nonneg])
      exact h.trans rfl
    have hdrop : "A" ∈ intercorrelated_features_set spearmanNoTies dfOutside (9/10) :=
      mem_intercorrelated.mpr ⟨(0, 1),
        mem_high_corr_pairs.mpr ⟨by norm_num, by norm_num [nCols, dfOutside],
          by norm_num [corr_matrix, colVals, dfOutside, spearmanNoTies, ranks, rankOf,
            List.filter, abs_of_nonneg]⟩,
        hch⟩
    exact fun hmem => (mem_selectNonIntercorrelated.mp hmem).2 hdrop

theorem C1_witness :
    7/10 < corr_matrix spearmanNoTies dfTilt 0 1 ∧
      mean_absolute_corr spearmanNoTies dfTilt 1 < mean_absolute_corr spearmanNoTies dfTilt 0 ∧
      colName dfTilt 0 ∈ intercorrelated_features_set spearmanNoTies dfTilt (7/10) ∧
      colName dfTilt 0 ∉ selectNonIntercorrelated spearmanNoTies dfTilt ["A", "B", "C"] (7/10) := by
  have hcorr : (7 : ℚ)/10 < corr_matrix spearmanNoTies dfTilt 0 1 := by
    norm_num [corr_matrix, colVals, dfTilt, spearmanNoTies, ranks, rankOf, List.filter,
      abs_of_nonneg]
  have hmean : mean_absolute_corr spearmanNoTies dfTilt 1
      < mean_absolute_corr spearmanNoTies dfTilt 0 := by
    norm_num [mean_absolute_corr, nCols, dfTilt, List.range_succ, corr_matrix, colVals,
      spearmanNoTies, ranks, rankOf, List.filter, abs_of_nonneg]
  exact ⟨hcorr, hmean,
    C1_higher_centrality_member_dropped spearmanNoTies dfTilt ["A", "B", "C"] (7/10)
      (by decide) 0 1 0 (by norm_num) (by norm_num [nCols, dfTilt]) hcorr
      (Or.inr ⟨rfl, hmean⟩)⟩

theorem C3_witness :
    (∀ i j, i < nCols dfPair → j < nCols dfPair → i ≠ j →
        corr_matrix spearmanNoTies dfPair i j < 9/10) ∧
      selectNonIntercorrelated spearmanNoTies dfPair ["A", "B"] (9/10) = ["A", "B"] := by
  have h : ∀ i j, i < nCols dfPair → j < nCols dfPair → i ≠ j →
      corr_matrix spearmanNoTies dfPair i j < 9/10 := by
    intro i j hi hj hne
    simp only [nCols, dfPair, List.length_cons, List.length_nil] at hi hj
    interval_cases i <;> interval_cases j <;> simp_all <;>
      norm_num [corr_matrix, colVals, dfPair, spearmanNoTies, ranks, rankOf, List.filter,
        abs_of_nonneg]
  exact ⟨h, C3_all_below_threshold_identity spearmanNoTies dfPair ["A", "B"] (9/10) h⟩

theorem C4_witness :
    (selectNonIntercorrelated spearmanNoTies dfPair ["A", "B"] (9/10)).Sublist ["A", "B"] ∧
      (selectNonIntercorrelated spearmanNoTies dfPair ["A", "B"] (9/10)).Nodup :=
  C4_output_sublist_nodup spearmanNoTies dfPair ["A", "B"] (9/10) (by decide)

theorem C5_witness :
    corr_matrix spearmanNoTies dfPair 0 1 = 4/5 ∧
      selectNonIntercorrelated spearmanNoTies dfPair ["A", "B"] (4/5) = ["A", "B"] := by
  have h : ∀ i j, i < nCols dfPair → j < nCols dfPair → i ≠ j →
      corr_matrix spearmanNoTies dfPair i j ≤ 4/5 := by
    intro i j hi hj hne
    simp only [nCols, dfPair, List.length_cons, List.length_nil] at hi hj
    interval_cases i <;> interval_cases j <;> simp_all <;>
      norm_num [corr_matrix, colVals, dfPair, spearmanNoTies, ranks, rankOf, List.filter,
        abs_of_nonneg]
  refine ⟨?_, C5_threshold_equality_not_exceeding spearmanNoTies dfPair ["A", "B"] (4/5) h⟩
  norm_num [corr_matrix, colVals, dfPair, spearmanNoTies, ranks, rankOf, List.filter,
    abs_of_nonneg]

theorem C7_witness :
    ("ghost" ∈ ["ghost", "B"] ∧ "ghost" ∉ colNames dfDup) ∧
      (selectNonIntercorrelated spearmanNoTies dfDup ["ghost", "B"] (9/10)).Sublist
          ["ghost", "B"] ∧
        "ghost" ∈ selectNonIntercorrelated spearmanNoTies dfDup ["ghost", "B"] (9/10) :=
  ⟨⟨by decide, by decide⟩,
    C7_amended_no_validation spearmanNoTies dfDup ["ghost", "B"] (9/10) "ghost"
      (by decide) (by decide)⟩

theorem C9_witness :
    ("ghost" ∈ ["A", "ghost"] ∧ "ghost" ∉ colNames dfDup) ∧
      "ghost" ∈ selectNonIntercorrelated spearmanNoTies dfDup ["A", "ghost"] (1/2) ∧
        ∀ y ∈ intercorrelated_features_set spearmanNoTies dfDup (1/2), y ∈ colNames dfDup :=
  ⟨⟨by decide, by decide⟩,
    C9_unknown_names_retained spearmanNoTies dfDup ["A", "ghost"] (1/2) "ghost"
      (by decide) (by decide)⟩

end AI4MI
